import Mathlib

/-!
Shallow embedding of the dead-resource analysis engine of the
Find-Unused-Resources repository (Dart CLI under `dart_cli/`).

The engine parses every Dart file under `lib/`, extracts class and
method/function declarations, an identifier census of the token stream,
import/export URIs and string-literal fragments, reads `pubspec.yaml`
for declared packages and assets, and produces the four unused-resource
reports.  Parsing itself is done by `package:analyzer`; the embedding
therefore models a parsed file by the extractor-relevant data the AST
visitors read off it (token lexemes, declaration sites, directive URIs,
string-literal nodes), and embeds every piece of repository logic that
consumes that data.
-/

namespace FindUnused

/-! ## Character-list string primitives

Counterparts of the Dart `String` operations the engine uses
(`contains`, `startsWith`, `endsWith '/'`, `trim`, `trimLeft`,
`split('\n')`, `replaceAll('\\', '/')`), written over `List Char`. -/

/-- `leadsWith needle hay` is Dart `hay.startsWith(needle)` on char lists. -/
def leadsWith : List Char → List Char → Bool
  | [], _ => true
  | _ :: _, [] => false
  | a :: as, b :: bs => a == b && leadsWith as bs

/-- `hasSubSeq needle hay` holds when `needle` occurs contiguously in `hay`. -/
def hasSubSeq (needle : List Char) : List Char → Bool
  | [] => needle.isEmpty
  | c :: rest => leadsWith needle (c :: rest) || hasSubSeq needle rest

/-- Dart `hay.contains(needle)` (substring containment). -/
def strContains (hay needle : String) : Bool :=
  hasSubSeq needle.data hay.data

/-- Dart `s.replaceAll('\\', '/')`: backslashes become forward slashes. -/
def strReplaceBack (s : String) : String :=
  String.mk (s.data.map (fun c => if c == '\\' then '/' else c))

/-- Dart `s.trimLeft()`. -/
def trimLeftStr (s : String) : String :=
  String.mk (s.data.dropWhile Char.isWhitespace)

/-- Dart `s.trim()`. -/
def trimStr (s : String) : String :=
  String.mk (((s.data.dropWhile Char.isWhitespace).reverse.dropWhile
    Char.isWhitespace).reverse)

/-- Split a char list at every occurrence of `sep` (Dart `split`). -/
def splitChars (sep : Char) : List Char → List (List Char)
  | [] => [[]]
  | c :: t =>
    let r := splitChars sep t
    if c == sep then [] :: r
    else
      match r with
      | [] => [[c]]
      | h :: t2 => (c :: h) :: t2

/-- Dart `content.split('\n')`. -/
def splitLines (s : String) : List String :=
  (splitChars '\n' s.data).map String.mk

/-- Dart `s.endsWith('/')`. -/
def endsWithSlash (s : String) : Bool :=
  s.data.getLast? == some '/'

/-! ## Path helpers (`package:path` on POSIX-style forward-slash paths) -/

/-- `p.basename`: the last path component, trailing slashes stripped. -/
def basename (s : String) : String :=
  let t := (s.data.reverse.dropWhile (fun c => c == '/')).reverse
  match (splitChars '/' t).getLast? with
  | some b => String.mk b
  | none => String.mk t

/-- `p.basenameWithoutExtension`: the basename with its extension (the part
from the last dot onwards) removed; a dot in first position starts no
extension, so dotfiles such as `.env` keep their full name. -/
def stemOf (s : String) : String :=
  let b := (basename s).data
  match b.reverse.findIdx? (fun c => c == '.') with
  | none => String.mk b
  | some j =>
    let i := b.length - 1 - j
    if i == 0 then String.mk b else String.mk (b.take i)

/-! ## Identifier census (`identifier_utils.dart` / `collectIdentifierLexemes`)

The source filters every token lexeme through `RegExp(r'^[A-Za-z_]\w*$')`. -/

/-- First character of the identifier pattern: `[A-Za-z_]`. -/
def isIdentStart (c : Char) : Bool := c.isAlpha || c == '_'

/-- Continuation character of the identifier pattern: `\w = [A-Za-z0-9_]`. -/
def isIdentCont (c : Char) : Bool := c.isAlphanum || c == '_'

/-- Whether a token lexeme matches `^[A-Za-z_]\w*$`. -/
def isIdentifierLexeme (s : String) : Bool :=
  match s.data with
  | [] => false
  | c :: rest => isIdentStart c && rest.all isIdentCont

/-- Number of occurrences of `n` in `l` (the `?? 0`-defaulting count map
the analyzer builds, read back at key `n`). -/
def countEq (l : List String) (n : String) : Nat :=
  (l.filter (fun x => x == n)).length

/-! ## YAML model (`package:yaml` values as the engine reads them)

A scalar is kept as the string Dart's `toString()` would render it to;
`nullv` is YAML null (also what a `YamlMap` lookup returns for a missing
key in Dart, where both read back as `null`). -/

inductive Yaml where
  | nullv : Yaml
  | scalar : String → Yaml
  | list : List Yaml → Yaml
  | map : List (String × Yaml) → Yaml

/-- `yamlMap[key]` in Dart: `some` the value when the key is present. -/
def lookupY : List (String × Yaml) → String → Option Yaml
  | [], _ => none
  | (k, v) :: t, key => if k == key then some v else lookupY t key

mutual

/-- Dart `toString()` of a YAML node (scalars render as themselves;
collection renderings mirror Dart's `[a, b]` / `k: v` forms). -/
def yamlToString : Yaml → String
  | .nullv => "null"
  | .scalar s => s
  | .list xs => "[" ++ yamlListToString xs ++ "]"
  | .map kvs => "\x7b" ++ yamlMapToString kvs ++ "\x7d"

def yamlListToString : List Yaml → String
  | [] => ""
  | [x] => yamlToString x
  | x :: y :: t => yamlToString x ++ ", " ++ yamlListToString (y :: t)

def yamlMapToString : List (String × Yaml) → String
  | [] => ""
  | [kv] => kv.1 ++ ": " ++ yamlToString kv.2
  | kv :: kv2 :: t => kv.1 ++ ": " ++ yamlToString kv.2 ++ ", " ++ yamlMapToString (kv2 :: t)

end

/-- The SDK pseudo-package test of `findUnusedPackages`:
`value is YamlMap && value['sdk'] != null`. -/
def isSdkPinned : Yaml → Bool
  | .map m =>
    match lookupY m "sdk" with
    | some .nullv => false
    | some _ => true
    | none => false
  | _ => false

/-! ## String-literal AST nodes (`string_literal_collector.dart`)

A parsed file's string-literal nodes.  `interp` elements are `some s`
for an `InterpolationString` segment and `none` for an interpolated
expression boundary.  Because the collector is a `RecursiveAstVisitor`,
nested string nodes are visited in their own right; a file's node list
therefore enumerates every string-literal node of the unit, nested ones
included as separate entries, and `collectNodeLits` reads one node
shallowly exactly as the corresponding `visit…` method does. -/

inductive StrNode where
  | simple : String → StrNode
  | adjacent : List StrNode → StrNode
  | interp : List (Option String) → StrNode

/-- `visitAdjacentStrings`: each `SimpleStringLiteral` part is recorded and
written to a buffer; the buffered concatenation is recorded at the end
(unconditionally, as in the source). -/
def adjacentCollect : List StrNode → String → List String
  | [], buf => [buf]
  | .simple s :: t, buf => s :: adjacentCollect t (buf ++ s)
  | _ :: t, buf => adjacentCollect t buf

/-- `visitStringInterpolation`: literal segments are recorded individually
and buffered; at each expression boundary a non-empty buffer is flushed,
and a non-empty buffer is flushed at the end. -/
def interpCollect : List (Option String) → String → List String
  | [], buf => if buf == "" then [] else [buf]
  | some s :: t, buf => s :: interpCollect t (buf ++ s)
  | none :: t, buf =>
    if buf == "" then interpCollect t "" else buf :: interpCollect t ""

/-- The fragments `StringLiteralCollector` records for one node. -/
def collectNodeLits : StrNode → List String
  | .simple s => [s]
  | .adjacent parts => adjacentCollect parts ""
  | .interp elems => interpCollect elems ""

/-! ## Parsed-file and project model -/

/-- The extractor-relevant content of one parsed Dart source file:
its project-relative forward-slash path, every token lexeme of the token
stream in order, every class-declaration and method/function-declaration
site (name token lexeme and 1-based line), every import/export directive
URI, and every string-literal node. -/
structure DartFile where
  relPath : String
  tokens : List String
  classDecls : List (String × Nat)
  methodDecls : List (String × Nat)
  uris : List String
  strNodes : List StrNode

/-- Parsed `pubspec.yaml`: the raw text (scanned for line numbers) and the
top-level YAML map entries. -/
structure PubspecData where
  text : String
  top : List (String × Yaml)

/-- The on-disk file system below the project root, as relative
forward-slash paths: regular files, and existing directories recorded in
the trailing-slash form asset entries use. -/
structure Disk where
  files : List String
  dirs : List String

/-- `Directory(dir).list(recursive: false)` restricted to files: the
immediate (non-recursive) file children of a trailing-slash directory. -/
def isImmediateChildOf (dirPath f : String) : Bool :=
  leadsWith dirPath.data f.data &&
    (let rest := f.data.drop dirPath.data.length
     !rest.isEmpty && rest.all (fun c => c != '/'))

def Disk.listDir (d : Disk) (dirPath : String) : List String :=
  d.files.filter (fun f => isImmediateChildOf dirPath f)

/-- One analysis run's input: whether `lib/` exists under the root, the
readable parsed Dart files under it (I/O-failing files are skipped by
the engine and so never appear here), the parsed manifest (`none` when
`pubspec.yaml` is missing or `loadYaml` fails), and the disk contents
used for asset-entry expansion. -/
structure Project where
  libExists : Bool
  files : List DartFile
  pubspec : Option PubspecData
  disk : Disk

/-! ## Declaration extraction (`class_collector.dart`, `method_collector.dart`) -/

/-- A reported finding: `{name, file, line}` with a project-relative
forward-slash `file`. -/
structure Finding where
  name : String
  file : String
  line : Nat
deriving DecidableEq

/-- `MethodCollector._excluded`: framework-invoked names whose
declarations are never recorded. -/
def excludedNames : List String :=
  ["build", "createState", "initState", "dispose", "deactivate",
   "reassemble", "didChangeDependencies", "didUpdateWidget",
   "debugFillProperties", "toString", "hashCode", "noSuchMethod", "main"]

/-- `ClassCollector` over all files: every class declaration becomes a
record (the report already stores the relative path). -/
def classInfosOf (proj : Project) : List Finding :=
  proj.files.flatMap (fun f =>
    f.classDecls.map (fun d => ⟨d.1, f.relPath, d.2⟩))

/-- `MethodCollector` over all files: method and function declarations,
skipping the excluded framework names. -/
def methodInfosOf (proj : Project) : List Finding :=
  proj.files.flatMap (fun f =>
    (f.methodDecls.filter (fun d => !(excludedNames.contains d.1))).map
      (fun d => ⟨d.1, f.relPath, d.2⟩))

/-- `collectIdentifierLexemes` (identifier_utils.dart): the token lexemes
of one file that match the identifier pattern. -/
def collectIdentifierLexemes (f : DartFile) : List String :=
  f.tokens.filter isIdentifierLexeme

/-- `identifierCountByName[n] ?? 0`: the kind-agnostic project-wide count
of identifier-shaped tokens with lexeme `n`. -/
def censusOf (proj : Project) (n : String) : Nat :=
  countEq (proj.files.flatMap collectIdentifierLexemes) n

/-- `declarationCountByName[n] ?? 0` for class declarations. -/
def classDeclCountOf (proj : Project) (n : String) : Nat :=
  countEq ((classInfosOf proj).map Finding.name) n

/-- `methodDeclarationCountByName[n] ?? 0` for recorded method/function
declarations. -/
def methodDeclCountOf (proj : Project) (n : String) : Nat :=
  countEq ((methodInfosOf proj).map Finding.name) n

/-- The unused-class loop of `analyzeProject`: a declaration is reported
when `total <= decls`. -/
def unusedClassesOf (proj : Project) : List Finding :=
  (classInfosOf proj).filter (fun i =>
    decide (censusOf proj i.name ≤ classDeclCountOf proj i.name))

/-- The unused-method loop of `analyzeProject`. -/
def unusedMethodsOf (proj : Project) : List Finding :=
  (methodInfosOf proj).filter (fun i =>
    decide (censusOf proj i.name ≤ methodDeclCountOf proj i.name))

/-! ## Unused packages (`findUnusedPackages`) -/

structure PkgFinding where
  name : String
  line : Nat
deriving DecidableEq

/-- The pre-colon key of a `pubspec.yaml` line: the line is trimmed on the
left, the text before the first colon is taken when the colon index is
positive, and the key is trimmed. -/
def lineKey (line : String) : Option String :=
  let t := trimLeftStr line
  match t.data.findIdx? (fun c => c == ':') with
  | some i => if 0 < i then some (trimStr (String.mk (t.data.take i))) else none
  | none => none

/-- The `lineNumberByPackage` pre-pass: scan the lines in order, storing
`i + 1` for each key on its first occurrence. -/
def buildLineMap : List String → Nat → List (String × Nat) → List (String × Nat)
  | [], _, m => m
  | l :: t, i, m =>
    match lineKey l with
    | some k =>
      if (List.lookup k m).isSome then buildLineMap t (i + 1) m
      else buildLineMap t (i + 1) (m ++ [(k, i + 1)])
    | none => buildLineMap t (i + 1) m

/-- The finished `lineNumberByPackage` map for a manifest text. -/
def pkgLineMap (text : String) : List (String × Nat) :=
  buildLineMap (splitLines text) 0 []

/-- Dart `Set.add`: append on first insertion, keep insertion order. -/
def addOnce (acc : List String) (n : String) : List String :=
  if acc.contains n then acc else acc ++ [n]

/-- One section's contribution to `packageNames`: skip the section when it
is not a map, skip SDK pseudo-packages, add the rest. -/
def sectionPkgNames (top : List (String × Yaml)) (sect : String)
    (acc : List String) : List String :=
  match lookupY top sect with
  | some (.map m) =>
    m.foldl (fun a kv => if isSdkPinned kv.2 then a else addOnce a kv.1) acc
  | _ => acc

/-- `packageNames` over `dependencies` then `dev_dependencies`. -/
def declNames (top : List (String × Yaml)) : List String :=
  sectionPkgNames top "dev_dependencies" (sectionPkgNames top "dependencies" [])

/-- The declared package names of a project (empty when the manifest is
missing or unparsable). -/
def declaredPackagesOf (proj : Project) : List String :=
  match proj.pubspec with
  | none => []
  | some ps => declNames ps.top

/-- Package-name extraction from one import/export URI: for a
`package:`-scheme URI, the segment after the scheme up to the first `/`
(the whole remainder when there is no slash). -/
def extractPkg (uri : String) : Option String :=
  if leadsWith ("package:".data) uri.data then
    some (String.mk ((uri.data.drop ("package:".data).length).takeWhile
      (fun c => c != '/')))
  else none

/-- `importedPackages`: every package name extracted from any file's
import/export URIs. -/
def importedPackagesOf (files : List DartFile) : List String :=
  (files.flatMap DartFile.uris).filterMap extractPkg

/-- The ascending-by-name ordering the output is sorted with. -/
def pkgLe (a b : PkgFinding) : Prop := a.name ≤ b.name

instance : DecidableRel pkgLe :=
  fun a b => inferInstanceAs (Decidable (a.name ≤ b.name))

instance : IsTotal PkgFinding pkgLe := ⟨fun a b => le_total a.name b.name⟩

instance : IsTrans PkgFinding pkgLe := ⟨fun _ _ _ h1 h2 => le_trans h1 h2⟩

/-- `unusedPackages.sort((a, b) => a.name.compareTo(b.name))`. -/
def sortPkgs (l : List PkgFinding) : List PkgFinding :=
  List.insertionSort pkgLe l

/-- `findUnusedPackages`: declared non-SDK packages never imported,
with the scanned line number (defaulting to 1), sorted by name. -/
def findUnusedPackages (proj : Project) : List PkgFinding :=
  match proj.pubspec with
  | none => []
  | some ps =>
    let pkgs := declNames ps.top
    if pkgs.isEmpty then []
    else
      let imported := importedPackagesOf proj.files
      sortPkgs ((pkgs.filter (fun n => !(imported.contains n))).map
        (fun n => ⟨n, (List.lookup n (pkgLineMap ps.text)).getD 1⟩))

/-! ## Unused assets (`findUnusedAssets`) -/

/-- The `flutter:` section of the manifest, when it parses to a map. -/
def flutterMapOf (proj : Project) : Option (List (String × Yaml)) :=
  match proj.pubspec with
  | some ps =>
    match lookupY ps.top "flutter" with
    | some (.map fm) => some fm
    | _ => none
  | none => none

/-- `fontAssetPaths`: every `asset:` value under
`flutter.fonts[].fonts[]`, backslash-normalized. -/
def fontAssetPathsOf (fm : List (String × Yaml)) : List String :=
  match lookupY fm "fonts" with
  | some (.list fams) =>
    fams.flatMap (fun fam =>
      match fam with
      | .map famm =>
        match lookupY famm "fonts" with
        | some (.list ffs) =>
          ffs.flatMap (fun ff =>
            match ff with
            | .map ffm =>
              match lookupY ffm "asset" with
              | some .nullv => []
              | some v => [strReplaceBack (yamlToString v)]
              | none => []
            | _ => [])
        | _ => []
      | _ => [])
  | _ => []

/-- `isAlwaysUsed`: font-declared asset paths and dotenv-style files are
consumed by convention, never by a literal path reference. -/
def isAlwaysUsedP (fonts : List String) (rel : String) : Bool :=
  fonts.contains rel ||
    (let nm := basename rel
     nm == ".env" || leadsWith ".env.".data nm.data)

/-- One `flutter.assets` entry's contribution to `declaredAssets`:
a trailing-slash entry expands to the immediate file children of the
directory when it exists (each child's relative path normalized and kept
when not always-used); any other entry contributes its normalized self
when it is not always-used and the file exists. -/
def expandAssetEntry (disk : Disk) (fonts : List String) (entry : Yaml) :
    List String :=
  let e := yamlToString entry
  if endsWithSlash e then
    if disk.dirs.contains e then
      ((disk.listDir e).map strReplaceBack).filter
        (fun c => !(isAlwaysUsedP fonts c))
    else []
  else
    let n := strReplaceBack e
    if !(isAlwaysUsedP fonts n) && disk.files.contains e then [n] else []

/-- `declaredAssets`: the expansion of every `flutter.assets` entry
(empty when the manifest, the `flutter` map or the asset list is
missing). -/
def declaredAssetsOf (proj : Project) : List String :=
  match flutterMapOf proj with
  | none => []
  | some fm =>
    match lookupY fm "assets" with
    | some (.list xs) =>
      xs.flatMap (expandAssetEntry proj.disk (fontAssetPathsOf fm))
    | _ => []

/-- `allStringLiterals`: every fragment the collector records in any
file (the source stores them in a set; only membership is consumed). -/
def allLiteralsOf (proj : Project) : List String :=
  proj.files.flatMap (fun f => f.strNodes.flatMap collectNodeLits)

/-- The reference test of step 5: some fragment contains the asset path,
its basename, or (for stems longer than 3) its stem. -/
def isReferenced (lits : List String) (assetPath : String) : Bool :=
  lits.any (fun lit =>
    strContains lit assetPath ||
    strContains lit (basename assetPath) ||
    (decide (3 < (stemOf assetPath).length) &&
      strContains lit (stemOf assetPath)))

/-- `findUnusedAssets`: the declared assets no fragment references. -/
def findUnusedAssets (proj : Project) : List String :=
  let da := declaredAssetsOf proj
  if da.isEmpty then []
  else
    let lits := allLiteralsOf proj
    da.filter (fun a => !(isReferenced lits a))

/-! ## The report (`analyzeProject`) -/

/-- The JSON-shaped analysis report: all four arrays are fields of the
structure, so every report carries all four. -/
structure Report where
  unused_classes : List Finding
  unused_methods : List Finding
  unused_packages : List PkgFinding
  unused_assets : List String
deriving DecidableEq

/-- `analyzeProject`: the empty report when `lib/` does not exist,
otherwise the four analyses over the collected files. -/
def analyzeProject (proj : Project) : Report :=
  if proj.libExists then
    { unused_classes := unusedClassesOf proj
      unused_methods := unusedMethodsOf proj
      unused_packages := findUnusedPackages proj
      unused_assets := findUnusedAssets proj }
  else
    { unused_classes := []
      unused_methods := []
      unused_packages := []
      unused_assets := [] }

/-- `isAlwaysUsed` as the project applies it: with the font asset paths
of the manifest's `flutter` map when that map parses, else with none. -/
def isAlwaysUsedOf (proj : Project) (rel : String) : Bool :=
  match flutterMapOf proj with
  | some fm => isAlwaysUsedP (fontAssetPathsOf fm) rel
  | none => isAlwaysUsedP [] rel

/-! ## Concrete projects used to evaluate the analyses -/

/-- A file declaring classes `Foo` and `Bar` and functions `helper` and
`dispose`; `Bar` is referenced once beyond its declaration. -/
def exFile1 : DartFile :=
  { relPath := "lib/a.dart"
    tokens := ["class", "Foo", "class", "Bar", "Bar", "helper", "void",
               "dispose"]
    classDecls := [("Foo", 1), ("Bar", 2)]
    methodDecls := [("helper", 3), ("dispose", 4)]
    uris := []
    strNodes := [] }

def exProj1 : Project :=
  { libExists := true
    files := [exFile1]
    pubspec := none
    disk := ⟨[], []⟩ }

def exProj2 : Project :=
  { libExists := true
    files := [{ relPath := "lib/a.dart", tokens := [], classDecls := [],
                methodDecls := [], uris := [], strNodes := [] }]
    pubspec := some
      { text := "flutter:\n  assets:\n    - assets/logo.png\n"
        top := [("flutter", .map [("assets",
                  .list [.scalar "assets/logo.png"])])] }
    disk := ⟨["assets/logo.png"], []⟩ }

def exProj3 : Project :=
  { libExists := true
    files := [{ relPath := "lib/a.dart", tokens := [], classDecls := [],
                methodDecls := [], uris := ["package:http/http.dart"],
                strNodes := [] }]
    pubspec := some
      { text := "dependencies:\n  http: ^1.0.0\n  intl: ^0.19.0\n"
        top := [("dependencies", .map [("http", .scalar "^1.0.0"),
                                       ("intl", .scalar "^0.19.0")])] }
    disk := ⟨[], []⟩ }

def exProj4 : Project :=
  { libExists := false
    files := []
    pubspec := none
    disk := ⟨[], []⟩ }

/-- A project with an existing `lib/` but no parsable source file, whose
manifest still declares a package and an asset that exists on disk. -/
def exProj5 : Project :=
  { libExists := true
    files := []
    pubspec := some
      { text := "dependencies:\n  http: ^1.0.0\nflutter:\n  assets:\n    - assets/logo.png\n"
        top := [("dependencies", .map [("http", .scalar "^1.0.0")]),
                ("flutter", .map [("assets",
                  .list [.scalar "assets/logo.png"])])] }
    disk := ⟨["assets/logo.png"], []⟩ }

/-- A directory-style asset entry whose only on-disk child is a dotenv
file. -/
def exDisk6 : Disk := ⟨["assets/.env"], ["assets/"]⟩

def exProj6 : Project :=
  { libExists := true
    files := []
    pubspec := some
      { text := "flutter:\n  assets:\n    - assets/\n"
        top := [("flutter", .map [("assets", .list [.scalar "assets/"])])] }
    disk := exDisk6 }

def exProj7 : Project :=
  { libExists := true
    files := [{ relPath := "lib/a.dart", tokens := ["helper"],
                classDecls := [], methodDecls := [("helper", 3), ("dispose", 4)],
                uris := [], strNodes := [] }]
    pubspec := none
    disk := ⟨[], []⟩ }

/-- An asset path declared both under `flutter.assets` and as a font file
under `flutter.fonts`. -/
def exProj8 : Project :=
  { libExists := true
    files := []
    pubspec := some
      { text := ""
        top := [("flutter", .map
          [("assets", .list [.scalar "assets/fonts/a.ttf"]),
           ("fonts", .list [.map
             [("family", .scalar "X"),
              ("fonts", .list [.map [("asset",
                .scalar "assets/fonts/a.ttf")]])]])])] }
    disk := ⟨["assets/fonts/a.ttf"], []⟩ }

def exPub9 : PubspecData :=
  { text := "dependencies:\n  flutter_sdk_dep:\n    sdk: flutter\n  http: ^1.0.0\n"
    top := [("dependencies", .map
      [("flutter_sdk_dep", .map [("sdk", .scalar "flutter")]),
       ("http", .scalar "^1.0.0")])] }

def exProj9 : Project :=
  { libExists := true
    files := []
    pubspec := some exPub9
    disk := ⟨[], []⟩ }

/-- A manifest whose parsed tree declares a package that never occurs as
a pre-colon key of the raw text (as happens with flow-style YAML). -/
def exPub10 : PubspecData :=
  { text := "name: demo\n"
    top := [("dependencies", .map [("ghost", .scalar "1.0.0")])] }

def exProj10 : Project :=
  { libExists := true
    files := []
    pubspec := some exPub10
    disk := ⟨[], []⟩ }

/-! ## Shared lemmas about the asset analysis -/

/-- Membership characterization of one asset entry's expansion. -/
theorem mem_expandAssetEntry (disk : Disk) (fonts : List String)
    (entry : Yaml) (x : String) :
    x ∈ expandAssetEntry disk fonts entry ↔
      (if endsWithSlash (yamlToString entry) = true then
        disk.dirs.contains (yamlToString entry) = true ∧
        ∃ f ∈ disk.files, isImmediateChildOf (yamlToString entry) f = true ∧
          x = strReplaceBack f ∧ isAlwaysUsedP fonts x = false
      else
        x = strReplaceBack (yamlToString entry) ∧
        disk.files.contains (yamlToString entry) = true ∧
        isAlwaysUsedP fonts x = false) := by
  have hzeta : expandAssetEntry disk fonts entry =
      if endsWithSlash (yamlToString entry) then
        (if disk.dirs.contains (yamlToString entry) then
          ((disk.listDir (yamlToString entry)).map strReplaceBack).filter
            (fun c => !(isAlwaysUsedP fonts c))
        else [])
      else
        (if !(isAlwaysUsedP fonts (strReplaceBack (yamlToString entry))) &&
              disk.files.contains (yamlToString entry) then
          [strReplaceBack (yamlToString entry)]
        else []) := rfl
  rw [hzeta]
  by_cases h : endsWithSlash (yamlToString entry) = true
  · rw [if_pos h, if_pos h]
    by_cases hd : disk.dirs.contains (yamlToString entry) = true
    · rw [if_pos hd]
      simp only [Disk.listDir, List.mem_filter, List.mem_map, hd, true_and,
        Bool.not_eq_true']
      constructor
      · rintro ⟨⟨f, ⟨hf, hchild⟩, hgf⟩, hpx⟩
        exact ⟨f, hf, hchild, hgf.symm, hpx⟩
      · rintro ⟨f, hf, hchild, hgf, hpx⟩
        exact ⟨⟨f, ⟨hf, hchild⟩, hgf.symm⟩, hpx⟩
    · rw [if_neg hd]
      simp only [List.not_mem_nil, false_iff]
      rintro ⟨hcont, _⟩
      exact hd hcont
  · rw [if_neg h, if_neg h]
    by_cases hc : (!(isAlwaysUsedP fonts (strReplaceBack (yamlToString entry))) &&
        disk.files.contains (yamlToString entry)) = true
    · rw [if_pos hc]
      rw [Bool.and_eq_true] at hc
      obtain ⟨hu, hcont⟩ := hc
      have hu' : isAlwaysUsedP fonts (strReplaceBack (yamlToString entry)) = false :=
        (Bool.not_eq_true' _).mp hu
      simp only [List.mem_singleton]
      constructor
      · intro hx
        exact ⟨hx, hcont, by rw [hx]; exact hu'⟩
      · intro hx
        exact hx.1
    · rw [if_neg hc]
      simp only [List.not_mem_nil, false_iff]
      rintro ⟨hx, hcont, hused⟩
      apply hc
      rw [Bool.and_eq_true]
      refine ⟨?_, hcont⟩
      rw [Bool.not_eq_true']
      rw [← hx]
      exact hused

/-- Every path an asset entry contributes has passed the `isAlwaysUsed`
filter. -/
theorem alwaysUsed_false_of_mem_expand (disk : Disk) (fonts : List String)
    (entry : Yaml) (x : String)
    (hx : x ∈ expandAssetEntry disk fonts entry) :
    isAlwaysUsedP fonts x = false := by
  rw [mem_expandAssetEntry] at hx
  by_cases h : endsWithSlash (yamlToString entry) = true
  · rw [if_pos h] at hx
    obtain ⟨_, _, _, _, _, hused⟩ := hx
    exact hused
  · rw [if_neg h] at hx
    exact hx.2.2

/-- Unfolding of `declaredAssetsOf` once the `flutter` map is known. -/
theorem declaredAssetsOf_eq_some (proj : Project) (fm : List (String × Yaml))
    (h : flutterMapOf proj = some fm) :
    declaredAssetsOf proj =
      match lookupY fm "assets" with
      | some (.list xs) =>
        xs.flatMap (expandAssetEntry proj.disk (fontAssetPathsOf fm))
      | _ => [] := by
  unfold declaredAssetsOf
  rw [h]

/-- `declaredAssetsOf` when the `flutter` map is absent or not a map. -/
theorem declaredAssetsOf_eq_none (proj : Project)
    (h : flutterMapOf proj = none) : declaredAssetsOf proj = [] := by
  unfold declaredAssetsOf
  rw [h]

/-- Unfolding of `isAlwaysUsedOf` once the `flutter` map is known. -/
theorem isAlwaysUsedOf_eq_some (proj : Project) (fm : List (String × Yaml))
    (h : flutterMapOf proj = some fm) :
    isAlwaysUsedOf proj = isAlwaysUsedP (fontAssetPathsOf fm) := by
  funext rel
  unfold isAlwaysUsedOf
  rw [h]

/-- Every declared asset has passed the `isAlwaysUsed` filter. -/
theorem alwaysUsed_false_of_mem_declared (proj : Project) (x : String)
    (hx : x ∈ declaredAssetsOf proj) :
    isAlwaysUsedOf proj x = false := by
  cases hfm : flutterMapOf proj with
  | none =>
    rw [declaredAssetsOf_eq_none proj hfm] at hx
    exact absurd hx (List.not_mem_nil x)
  | some fm =>
    rw [declaredAssetsOf_eq_some proj fm hfm] at hx
    rw [isAlwaysUsedOf_eq_some proj fm hfm]
    cases hass : lookupY fm "assets" with
    | none =>
      rw [hass] at hx
      exact absurd hx (List.not_mem_nil x)
    | some v =>
      rw [hass] at hx
      cases v with
      | list xs =>
        obtain ⟨entry, _, hmem⟩ := List.mem_flatMap.mp hx
        exact alwaysUsed_false_of_mem_expand proj.disk (fontAssetPathsOf fm)
          entry x hmem
      | nullv => exact absurd hx (List.not_mem_nil x)
      | scalar s => exact absurd hx (List.not_mem_nil x)
      | map m => exact absurd hx (List.not_mem_nil x)

/-- The unused-asset list only reports declared assets. -/
theorem mem_declared_of_mem_unusedAssets (proj : Project) (x : String)
    (hx : x ∈ findUnusedAssets proj) :
    x ∈ declaredAssetsOf proj := by
  unfold findUnusedAssets at hx
  by_cases he : (declaredAssetsOf proj).isEmpty = true
  · rw [if_pos he] at hx
    exact absurd hx (List.not_mem_nil x)
  · rw [if_neg he] at hx
    exact (List.mem_filter.mp hx).1

/-! ## Shared lemmas about the package analysis -/

/-- The claim-level reading of the line scan: the 1-based index of the
first line (counting from index `i`) whose pre-colon key is `name`. -/
def firstKeyLineFrom (name : String) : List String → Nat → Option Nat
  | [], _ => none
  | l :: t, i =>
    if lineKey l = some name then some (i + 1)
    else firstKeyLineFrom name t (i + 1)

/-- The 1-based index of the first manifest line whose pre-colon key is
`name`. -/
def firstKeyLine (text : String) (name : String) : Option Nat :=
  firstKeyLineFrom name (splitLines text) 0

/-- The entries of a dependency section, when it parses to a map. -/
def sectionEntries (top : List (String × Yaml)) (sect : String) :
    List (String × Yaml) :=
  match lookupY top sect with
  | some (.map m) => m
  | _ => []

theorem lookup_append (k : String) (m m2 : List (String × Nat)) :
    List.lookup k (m ++ m2) =
      match List.lookup k m with
      | some v => some v
      | none => List.lookup k m2 := by
  induction m with
  | nil => rfl
  | cons kv t ih =>
    rcases kv with ⟨k2, v2⟩
    by_cases h : (k == k2) = true
    · simp [List.lookup, h]
    · rw [Bool.not_eq_true] at h
      simp only [List.cons_append, List.lookup, h]
      exact ih

/-- One unfolding step of `firstKeyLineFrom`. -/
theorem firstKeyLineFrom_cons (k l : String) (t : List String) (i : Nat) :
    firstKeyLineFrom k (l :: t) i =
      if lineKey l = some k then some (i + 1)
      else firstKeyLineFrom k t (i + 1) := rfl

/-- One unfolding step of `buildLineMap` when the head line has a key. -/
theorem buildLineMap_cons_some (l : String) (t : List String) (i : Nat)
    (m : List (String × Nat)) (key : String) (hk : lineKey l = some key) :
    buildLineMap (l :: t) i m =
      if (List.lookup key m).isSome then buildLineMap t (i + 1) m
      else buildLineMap t (i + 1) (m ++ [(key, i + 1)]) := by
  have hstep : buildLineMap (l :: t) i m =
      match lineKey l with
      | some key =>
        if (List.lookup key m).isSome then buildLineMap t (i + 1) m
        else buildLineMap t (i + 1) (m ++ [(key, i + 1)])
      | none => buildLineMap t (i + 1) m := rfl
  rw [hstep, hk]

/-- One unfolding step of `buildLineMap` when the head line has no key. -/
theorem buildLineMap_cons_none (l : String) (t : List String) (i : Nat)
    (m : List (String × Nat)) (hk : lineKey l = none) :
    buildLineMap (l :: t) i m = buildLineMap t (i + 1) m := by
  have hstep : buildLineMap (l :: t) i m =
      match lineKey l with
      | some key =>
        if (List.lookup key m).isSome then buildLineMap t (i + 1) m
        else buildLineMap t (i + 1) (m ++ [(key, i + 1)])
      | none => buildLineMap t (i + 1) m := rfl
  rw [hstep, hk]

/-- Looking a key up in the first-wins line map built from an
accumulator returns the accumulator's binding when present, else the
first matching line from the remaining lines. -/
theorem lookup_buildLineMap (lines : List String) :
    ∀ (i : Nat) (m : List (String × Nat)) (k : String),
      List.lookup k (buildLineMap lines i m) =
        match List.lookup k m with
        | some v => some v
        | none => firstKeyLineFrom k lines i := by
  induction lines with
  | nil =>
    intro i m k
    cases hm : List.lookup k m <;> simp [buildLineMap, firstKeyLineFrom, hm]
  | cons l t ih =>
    intro i m k
    cases hk : lineKey l with
    | none =>
      have hfkl : firstKeyLineFrom k (l :: t) i = firstKeyLineFrom k t (i + 1) := by
        rw [firstKeyLineFrom_cons,
          if_neg (by rw [hk]; exact fun hcon => Option.noConfusion hcon)]
      rw [buildLineMap_cons_none l t i m hk, ih, hfkl]
    | some key =>
      rw [buildLineMap_cons_some l t i m key hk]
      by_cases hs : (List.lookup key m).isSome = true
      · rw [if_pos hs, ih]
        cases hm : List.lookup k m with
        | some v => simp [hm]
        | none =>
          by_cases hkey : key = k
          · rw [hkey, hm] at hs
            simp at hs
          · have hfkl : firstKeyLineFrom k (l :: t) i = firstKeyLineFrom k t (i + 1) := by
              rw [firstKeyLineFrom_cons,
                if_neg (by rw [hk]; exact fun hcon => hkey (Option.some.inj hcon))]
            rw [hfkl]
      · rw [if_neg hs, ih, lookup_append]
        cases hm : List.lookup k m with
        | some v => simp [hm]
        | none =>
          by_cases hkey : key = k
          · have hone : List.lookup k [(key, i + 1)] = some (i + 1) := by
              simp [List.lookup, hkey]
            have hfkl : firstKeyLineFrom k (l :: t) i = some (i + 1) := by
              rw [firstKeyLineFrom_cons, if_pos (by rw [hk, hkey])]
            rw [hone, hfkl]
          · have hone : List.lookup k [(key, i + 1)] = none := by
              have hne : (k == key) = false := by
                rw [Bool.eq_false_iff]
                intro hcon
                exact hkey (beq_iff_eq.mp hcon).symm
              simp [List.lookup, hne]
            have hfkl : firstKeyLineFrom k (l :: t) i = firstKeyLineFrom k t (i + 1) := by
              rw [firstKeyLineFrom_cons,
                if_neg (by rw [hk]; exact fun hcon => hkey (Option.some.inj hcon))]
            rw [hone, hfkl]

/-- When no line's pre-colon key is `k`, the scan finds nothing. -/
theorem firstKeyLineFrom_eq_none (k : String) (lines : List String)
    (h : ∀ l ∈ lines, lineKey l ≠ some k) :
    ∀ i, firstKeyLineFrom k lines i = none := by
  induction lines with
  | nil => intro i; rfl
  | cons l t ih =>
    intro i
    rw [firstKeyLineFrom_cons, if_neg (h l (List.mem_cons_self l t))]
    exact ih (fun x hx => h x (List.mem_cons_of_mem l hx)) (i + 1)

/-- Scanned line numbers exceed the starting index, hence are positive. -/
theorem firstKeyLineFrom_pos (k : String) (lines : List String) :
    ∀ i v, firstKeyLineFrom k lines i = some v → i < v := by
  induction lines with
  | nil =>
    intro i v h
    exact absurd h (by simp [firstKeyLineFrom])
  | cons l t ih =>
    intro i v h
    rw [firstKeyLineFrom_cons] at h
    by_cases hl : lineKey l = some k
    · rw [if_pos hl] at h
      have := Option.some.inj h
      omega
    · rw [if_neg hl] at h
      have := ih (i + 1) v h
      omega

theorem mem_addOnce (acc : List String) (n x : String) :
    x ∈ addOnce acc n ↔ x ∈ acc ∨ x = n := by
  unfold addOnce
  by_cases h : acc.contains n = true
  · rw [if_pos h]
    constructor
    · exact Or.inl
    · rintro (hx | rfl)
      · exact hx
      · simpa using h
  · rw [if_neg h]
    simp

theorem mem_sectionFold (entries : List (String × Yaml)) :
    ∀ (acc : List String) (x : String),
      (x ∈ entries.foldl
        (fun a kv => if isSdkPinned kv.2 then a else addOnce a kv.1) acc ↔
      x ∈ acc ∨ ∃ kv ∈ entries, isSdkPinned kv.2 = false ∧ x = kv.1) := by
  induction entries with
  | nil => simp
  | cons kv t ih =>
    intro acc x
    rw [List.foldl_cons]
    by_cases h : isSdkPinned kv.2 = true
    · rw [if_pos h, ih]
      simp only [List.mem_cons]
      constructor
      · rintro (hx | ⟨kv2, hm, hp, hx⟩)
        · exact Or.inl hx
        · exact Or.inr ⟨kv2, Or.inr hm, hp, hx⟩
      · rintro (hx | ⟨kv2, hm | hm, hp, hx⟩)
        · exact Or.inl hx
        · rw [hm] at hp
          rw [hp] at h
          exact Bool.noConfusion h
        · exact Or.inr ⟨kv2, hm, hp, hx⟩
    · rw [if_neg h, ih]
      rw [Bool.not_eq_true] at h
      simp only [mem_addOnce, List.mem_cons]
      constructor
      · rintro ((hx | hx) | ⟨kv2, hm, hp, hx⟩)
        · exact Or.inl hx
        · exact Or.inr ⟨kv, Or.inl rfl, h, hx⟩
        · exact Or.inr ⟨kv2, Or.inr hm, hp, hx⟩
      · rintro (hx | ⟨kv2, hm | hm, hp, hx⟩)
        · exact Or.inl (Or.inl hx)
        · rw [hm] at hx
          exact Or.inl (Or.inr hx)
        · exact Or.inr ⟨kv2, hm, hp, hx⟩

theorem mem_sectionPkgNames (top : List (String × Yaml)) (sect : String)
    (acc : List String) (x : String) :
    x ∈ sectionPkgNames top sect acc ↔
      x ∈ acc ∨ ∃ kv ∈ sectionEntries top sect,
        isSdkPinned kv.2 = false ∧ x = kv.1 := by
  unfold sectionPkgNames sectionEntries
  cases hl : lookupY top sect with
  | none => simp
  | some v =>
    cases v with
    | map m => exact mem_sectionFold m acc x
    | nullv => simp
    | scalar s => simp
    | list xs => simp

/-- Membership in the declared package names: an entry of one of the two
dependency sections that is not SDK-pinned. -/
theorem mem_declNames (top : List (String × Yaml)) (x : String) :
    x ∈ declNames top ↔
      ∃ s ∈ ["dependencies", "dev_dependencies"],
        ∃ kv ∈ sectionEntries top s, isSdkPinned kv.2 = false ∧ x = kv.1 := by
  unfold declNames
  rw [mem_sectionPkgNames, mem_sectionPkgNames]
  simp only [List.mem_cons, List.not_mem_nil, or_false, List.mem_singleton]
  constructor
  · rintro ((h | hdep) | hdev)
    · exact h.elim
    · exact ⟨"dependencies", Or.inl rfl, hdep⟩
    · exact ⟨"dev_dependencies", Or.inr rfl, hdev⟩
  · rintro ⟨s, hs | hs, hkv⟩
    · subst hs
      exact Or.inl (Or.inr hkv)
    · subst hs
      exact Or.inr hkv

/-- Membership in the extracted imported-package names. -/
theorem mem_importedPackages (files : List DartFile) (n : String) :
    n ∈ importedPackagesOf files ↔
      ∃ f ∈ files, ∃ uri ∈ f.uris, extractPkg uri = some n := by
  unfold importedPackagesOf
  rw [List.mem_filterMap]
  constructor
  · rintro ⟨uri, hu, hex⟩
    obtain ⟨f, hf, hu⟩ := List.mem_flatMap.mp hu
    exact ⟨f, hf, uri, hu, hex⟩
  · rintro ⟨f, hf, uri, hu, hex⟩
    exact ⟨uri, List.mem_flatMap.mpr ⟨f, hf, hu⟩, hex⟩

/-- Unfolding of `findUnusedPackages` once the manifest is known. -/
theorem findUnusedPackages_eq_some (proj : Project) (ps : PubspecData)
    (hps : proj.pubspec = some ps) :
    findUnusedPackages proj =
      (if (declNames ps.top).isEmpty then []
       else
        sortPkgs (((declNames ps.top).filter
            (fun n => !((importedPackagesOf proj.files).contains n))).map
          (fun n => ⟨n, (List.lookup n (pkgLineMap ps.text)).getD 1⟩))) := by
  unfold findUnusedPackages
  rw [hps]

/-- Membership characterization of the unused-package output. -/
theorem mem_findUnusedPackages (proj : Project) (ps : PubspecData)
    (hps : proj.pubspec = some ps) (e : PkgFinding) :
    e ∈ findUnusedPackages proj ↔
      e.name ∈ declNames ps.top ∧
      (importedPackagesOf proj.files).contains e.name = false ∧
      e.line = (List.lookup e.name (pkgLineMap ps.text)).getD 1 := by
  rw [findUnusedPackages_eq_some proj ps hps]
  by_cases hemp : (declNames ps.top).isEmpty = true
  · rw [if_pos hemp]
    rw [List.isEmpty_iff] at hemp
    simp [hemp]
  · rw [if_neg hemp]
    unfold sortPkgs
    rw [(List.perm_insertionSort pkgLe _).mem_iff, List.mem_map]
    constructor
    · rintro ⟨n, hn, hEq⟩
      obtain ⟨hdecl, himp⟩ := List.mem_filter.mp hn
      rw [Bool.not_eq_true'] at himp
      rw [← hEq]
      exact ⟨hdecl, himp, rfl⟩
    · rintro ⟨hdecl, himp, hline⟩
      refine ⟨e.name, List.mem_filter.mpr ⟨hdecl, ?_⟩, ?_⟩
      · rw [Bool.not_eq_true', himp]
      · cases e with
        | mk nm ln =>
          simp only at hline
          rw [hline]

theorem contains_eq_mem (l : List String) (a : String) :
    l.contains a = true ↔ a ∈ l := by
  simp

theorem declaredPackagesOf_eq (proj : Project) (ps : PubspecData)
    (hps : proj.pubspec = some ps) :
    declaredPackagesOf proj = declNames ps.top := by
  unfold declaredPackagesOf
  rw [hps]

theorem declaredPackagesOf_eq_none (proj : Project)
    (hps : proj.pubspec = none) : declaredPackagesOf proj = [] := by
  unfold declaredPackagesOf
  rw [hps]

theorem findUnusedPackages_eq_none (proj : Project)
    (hps : proj.pubspec = none) : findUnusedPackages proj = [] := by
  unfold findUnusedPackages
  rw [hps]

/-- The unused-package output is an insertion sort, hence sorted. -/
theorem sorted_findUnusedPackages (proj : Project) :
    List.Sorted pkgLe (findUnusedPackages proj) := by
  cases hps : proj.pubspec with
  | none =>
    have : findUnusedPackages proj = [] := by
      unfold findUnusedPackages
      rw [hps]
    rw [this]
    exact List.sorted_nil
  | some ps =>
    rw [findUnusedPackages_eq_some proj ps hps]
    by_cases hemp : (declNames ps.top).isEmpty = true
    · rw [if_pos hemp]
      exact List.sorted_nil
    · rw [if_neg hemp]
      exact List.sorted_insertionSort pkgLe _

/-! ## Claim theorems -/

/-- C1: a class declaration, and likewise a recorded method/function
declaration, named `N` appears in the corresponding unused list iff the
kind-agnostic identifier census of `N` is at most the same-kind
declaration count of `N`. -/
theorem C1_unused_symbol_iff (proj : Project) (hlib : proj.libExists = true) :
    (∀ d ∈ classInfosOf proj,
      (d ∈ (analyzeProject proj).unused_classes ↔
        censusOf proj d.name ≤ classDeclCountOf proj d.name)) ∧
    (∀ d ∈ methodInfosOf proj,
      (d ∈ (analyzeProject proj).unused_methods ↔
        censusOf proj d.name ≤ methodDeclCountOf proj d.name)) := by
  constructor
  · intro d hd
    simp [analyzeProject, hlib, unusedClassesOf, List.mem_filter, hd]
  · intro d hd
    simp [analyzeProject, hlib, unusedMethodsOf, List.mem_filter, hd]

/-- C1 witness: in a project declaring `Foo` (never referenced again) and
`Bar` (referenced once more), `Foo` is reported unused. -/
theorem C1_witness :
    (⟨"Foo", "lib/a.dart", 1⟩ : Finding) ∈
      (analyzeProject exProj1).unused_classes :=
  ((C1_unused_symbol_iff exProj1 rfl).1 ⟨"Foo", "lib/a.dart", 1⟩
    (by decide)).mpr (by decide)

/-- C4: when `lib/` does not exist under the project root, the engine
returns the report structure with all four arrays present and empty. -/
theorem C4_missing_lib_empty_report (proj : Project)
    (h : proj.libExists = false) :
    analyzeProject proj =
      { unused_classes := [], unused_methods := [],
        unused_packages := [], unused_assets := [] } := by
  simp [analyzeProject, h]

/-- C4 witness: the concrete project without a `lib/` directory. -/
theorem C4_witness :
    analyzeProject exProj4 =
      { unused_classes := [], unused_methods := [],
        unused_packages := [], unused_assets := [] } :=
  C4_missing_lib_empty_report exProj4 rfl

/-- C7: no recorded method/function declaration, and hence no
`unused_methods` entry, carries a name of the fixed framework exclusion
set (`build`, …, `dispose`, …, `toString`, `hashCode`, `noSuchMethod`,
`main`). -/
theorem C7_excluded_methods_never_reported (proj : Project) :
    (∀ d ∈ methodInfosOf proj, excludedNames.contains d.name = false) ∧
    (∀ e ∈ (analyzeProject proj).unused_methods,
      excludedNames.contains e.name = false) := by
  have h1 : ∀ d ∈ methodInfosOf proj,
      excludedNames.contains d.name = false := by
    intro d hd
    simp only [methodInfosOf, List.mem_flatMap, List.mem_map,
      List.mem_filter] at hd
    obtain ⟨f, _, d0, ⟨_, hex⟩, hEq⟩ := hd
    have hname : d.name = d0.1 := by rw [← hEq]
    rw [hname]
    exact (Bool.not_eq_true' _).mp hex
  refine ⟨h1, ?_⟩
  intro e he
  cases hl : proj.libExists with
  | false => simp [analyzeProject, hl] at he
  | true =>
    have hm : e ∈ methodInfosOf proj := by
      simp only [analyzeProject, hl, if_true, unusedMethodsOf,
        List.mem_filter] at he
      exact he.1
    exact h1 e hm

/-- C7 witness: a reported unused method of a project that also declares
`dispose`; its name is not in the exclusion set, and `dispose` itself is
never reported. -/
theorem C7_witness : excludedNames.contains "helper" = false :=
  (C7_excluded_methods_never_reported exProj7).2
    ⟨"helper", "lib/a.dart", 3⟩ (by decide)

/-- C2: a declared asset (post font/env exclusion) is reported unused iff
no collected literal fragment contains its relative path, none contains
its basename, and — only when the extension-stripped stem is longer than
3 characters — none contains that stem. -/
theorem C2_unused_asset_iff (proj : Project) (a : String)
    (ha : a ∈ declaredAssetsOf proj) :
    a ∈ findUnusedAssets proj ↔
      ∀ lit ∈ allLiteralsOf proj,
        strContains lit a = false ∧
        strContains lit (basename a) = false ∧
        (3 < (stemOf a).length → strContains lit (stemOf a) = false) := by
  have heq : findUnusedAssets proj =
      if (declaredAssetsOf proj).isEmpty then []
      else (declaredAssetsOf proj).filter
        (fun x => !(isReferenced (allLiteralsOf proj) x)) := rfl
  rw [heq,
    if_neg (fun hemp => List.ne_nil_of_mem ha (List.isEmpty_iff.mp hemp)),
    List.mem_filter]
  simp only [ha, true_and, Bool.not_eq_true']
  unfold isReferenced
  rw [List.any_eq_false]
  refine forall_congr' fun lit => imp_congr_right fun _ => ?_
  simp only [Bool.or_eq_true, Bool.and_eq_true, not_or, not_and,
    decide_eq_true_eq, Bool.not_eq_true, and_assoc]

/-- C2 witness: a declared asset of a project with no literal fragments
at all is reported unused. -/
theorem C2_witness : "assets/logo.png" ∈ findUnusedAssets exProj2 :=
  (C2_unused_asset_iff exProj2 "assets/logo.png" (by decide)).mpr (by decide)

/-- C6 counterexample: a directory-style entry `assets/` whose only
on-disk immediate file child is `assets/.env` contributes no declared
asset at all, although the child is present on disk — the expansion is
not "exactly the immediate file children". -/
theorem C6_counterexample :
    exDisk6.listDir "assets/" = ["assets/.env"] ∧
    declaredAssetsOf exProj6 = [] := by decide

/-- C6 amended: a trailing-slash entry expands to exactly the immediate
(non-recursive) on-disk file children of the directory that survive the
font/env exclusion (and to nothing when the directory does not exist);
any other entry contributes its normalized path exactly when the file
exists on disk and survives the exclusion. -/
theorem C6_amended_entry_expansion (disk : Disk) (fonts : List String)
    (entry : Yaml) (x : String) :
    x ∈ expandAssetEntry disk fonts entry ↔
      (if endsWithSlash (yamlToString entry) = true then
        disk.dirs.contains (yamlToString entry) = true ∧
        ∃ f ∈ disk.files, isImmediateChildOf (yamlToString entry) f = true ∧
          x = strReplaceBack f ∧ isAlwaysUsedP fonts x = false
      else
        x = strReplaceBack (yamlToString entry) ∧
        disk.files.contains (yamlToString entry) = true ∧
        isAlwaysUsedP fonts x = false) :=
  mem_expandAssetEntry disk fonts entry x

/-- C8: an asset path declared as a font file, or with a dotenv-style
basename, is excluded from the declared-asset set entirely and never
appears in `unused_assets`. -/
theorem C8_convention_assets_never_flagged (proj : Project) (a : String)
    (h : isAlwaysUsedOf proj a = true) :
    a ∉ declaredAssetsOf proj ∧ a ∉ (analyzeProject proj).unused_assets := by
  have h1 : a ∉ declaredAssetsOf proj := by
    intro hmem
    rw [alwaysUsed_false_of_mem_declared proj a hmem] at h
    exact Bool.false_ne_true h
  refine ⟨h1, ?_⟩
  intro hmem
  cases hl : proj.libExists with
  | false => simp [analyzeProject, hl] at hmem
  | true =>
    have hfu : a ∈ findUnusedAssets proj := by
      simp only [analyzeProject, hl, if_true] at hmem
      exact hmem
    exact h1 (mem_declared_of_mem_unusedAssets proj a hfu)

/-- C8 witness: an asset declared both under `flutter.assets` and as a
font file is neither declared nor flagged. -/
theorem C8_witness :
    "assets/fonts/a.ttf" ∉ declaredAssetsOf exProj8 ∧
    "assets/fonts/a.ttf" ∉ (analyzeProject exProj8).unused_assets :=
  C8_convention_assets_never_flagged exProj8 "assets/fonts/a.ttf" (by decide)

/-- C3: a declared package is reported unused iff its name is never the
package name extracted from any package-scheme import/export URI of any
parsed file, and the output is sorted ascending by package name. -/
theorem C3_unused_packages_iff_sorted (proj : Project) :
    (∀ n ∈ declaredPackagesOf proj,
      ((∃ e ∈ findUnusedPackages proj, e.name = n) ↔
        ¬ ∃ f ∈ proj.files, ∃ uri ∈ f.uris, extractPkg uri = some n)) ∧
    List.Sorted pkgLe (findUnusedPackages proj) := by
  refine ⟨?_, sorted_findUnusedPackages proj⟩
  intro n hn
  cases hps : proj.pubspec with
  | none =>
    rw [declaredPackagesOf_eq_none proj hps] at hn
    exact absurd hn (List.not_mem_nil n)
  | some ps =>
    rw [declaredPackagesOf_eq proj ps hps] at hn
    rw [← mem_importedPackages proj.files n]
    constructor
    · rintro ⟨e, he, hname⟩ himp
      have hm := (mem_findUnusedPackages proj ps hps e).mp he
      rw [hname] at hm
      rw [(contains_eq_mem _ _).mpr himp] at hm
      exact Bool.noConfusion hm.2.1
    · intro hni
      have hc : (importedPackagesOf proj.files).contains n = false := by
        rw [Bool.eq_false_iff]
        intro hcon
        exact hni ((contains_eq_mem _ _).mp hcon)
      exact ⟨⟨n, (List.lookup n (pkgLineMap ps.text)).getD 1⟩,
        (mem_findUnusedPackages proj ps hps _).mpr ⟨hn, hc, rfl⟩, rfl⟩

/-- C3 witness: with only `package:http/http.dart` imported, declared
`intl` is reported. -/
theorem C3_witness : ∃ e ∈ findUnusedPackages exProj3, e.name = "intl" :=
  ((C3_unused_packages_iff_sorted exProj3).1 "intl" (by decide)).mpr
    (by decide)

/-- C9: a dependency or dev-dependency entry is declared exactly when it
is not SDK-pinned, and a reported package's line number is the 1-based
index of the first manifest line whose pre-colon key is its name,
whenever such a line exists. -/
theorem C9_declared_packages_and_line_numbers (proj : Project)
    (ps : PubspecData) (hps : proj.pubspec = some ps) :
    (∀ n, n ∈ declaredPackagesOf proj ↔
      ∃ s ∈ ["dependencies", "dev_dependencies"],
        ∃ kv ∈ sectionEntries ps.top s, isSdkPinned kv.2 = false ∧ n = kv.1) ∧
    (∀ e ∈ findUnusedPackages proj, ∀ i,
      firstKeyLine ps.text e.name = some i → e.line = i) := by
  constructor
  · intro n
    rw [declaredPackagesOf_eq proj ps hps]
    exact mem_declNames ps.top n
  · intro e he i hi
    have hm := (mem_findUnusedPackages proj ps hps e).mp he
    have hlook : List.lookup e.name (pkgLineMap ps.text) =
        firstKeyLineFrom e.name (splitLines ps.text) 0 := by
      unfold pkgLineMap
      rw [lookup_buildLineMap]
      rfl
    unfold firstKeyLine at hi
    rw [hm.2.2, hlook, hi]
    rfl

/-- C9 witness: `http` is declared, the SDK-pinned pseudo-package is
not, and the reported line for `http` is its manifest line 4. -/
theorem C9_witness :
    "http" ∈ declaredPackagesOf exProj9 ∧
    "flutter_sdk_dep" ∉ declaredPackagesOf exProj9 ∧
    (⟨"http", 4⟩ : PkgFinding).line = 4 := by
  have h := C9_declared_packages_and_line_numbers exProj9 exPub9 rfl
  refine ⟨(h.1 "http").mpr (by decide), ?_,
    h.2 ⟨"http", 4⟩ (by decide) 4 (by decide)⟩
  intro hcon
  have hex := (h.1 "flutter_sdk_dep").mp hcon
  revert hex
  decide

/-- C10: a reported package whose name is no line's pre-colon key gets
line 1, and every reported line number is at least 1. -/
theorem C10_default_line_and_min (proj : Project) (ps : PubspecData)
    (hps : proj.pubspec = some ps) :
    ∀ e ∈ findUnusedPackages proj,
      ((∀ l ∈ splitLines ps.text, lineKey l ≠ some e.name) → e.line = 1) ∧
      1 ≤ e.line := by
  intro e he
  have hm := (mem_findUnusedPackages proj ps hps e).mp he
  have hlook : List.lookup e.name (pkgLineMap ps.text) =
      firstKeyLineFrom e.name (splitLines ps.text) 0 := by
    unfold pkgLineMap
    rw [lookup_buildLineMap]
    rfl
  constructor
  · intro hno
    rw [hm.2.2, hlook,
      firstKeyLineFrom_eq_none e.name (splitLines ps.text) hno 0]
    rfl
  · rw [hm.2.2, hlook]
    cases hv : firstKeyLineFrom e.name (splitLines ps.text) 0 with
    | none => simp
    | some v =>
      have hpos := firstKeyLineFrom_pos e.name (splitLines ps.text) 0 v hv
      simp only [Option.getD_some]
      omega

/-- C10 witness: a package declared only in the parsed tree, with no
matching manifest line, is reported at line 1. -/
theorem C10_witness :
    (⟨"ghost", 1⟩ : PkgFinding).line = 1 ∧
    1 ≤ (⟨"ghost", 1⟩ : PkgFinding).line := by
  have h := C10_default_line_and_min exProj10 exPub10 rfl ⟨"ghost", 1⟩
    (by decide)
  exact ⟨h.1 (by decide), h.2⟩

/-- C5 counterexample: a project with an existing `lib/` but an empty
source-file set whose manifest declares `http`; the unused-package array
of the report is not empty, contradicting the claim that every result
array is empty for empty source sets. -/
theorem C5_counterexample :
    exProj5.files = [] ∧
    declaredPackagesOf exProj5 = ["http"] ∧
    (analyzeProject exProj5).unused_packages ≠ [] :=
  ⟨rfl, by decide, by decide⟩

/-- C5 amended: with an empty source-file set the engine still raises no
error: `unused_classes` and `unused_methods` are empty, while
`unused_packages` lists every declared non-SDK package (sorted, with its
scanned line) and `unused_assets` lists every surviving declared asset,
since nothing is imported or referenced. -/
theorem C5_amended_empty_sources (proj : Project)
    (hlib : proj.libExists = true) (hf : proj.files = []) :
    (analyzeProject proj).unused_classes = [] ∧
    (analyzeProject proj).unused_methods = [] ∧
    (analyzeProject proj).unused_packages =
      (match proj.pubspec with
       | none => []
       | some ps =>
        sortPkgs ((declNames ps.top).map
          (fun n => ⟨n, (List.lookup n (pkgLineMap ps.text)).getD 1⟩))) ∧
    (analyzeProject proj).unused_assets = declaredAssetsOf proj := by
  have hrep : analyzeProject proj =
      { unused_classes := unusedClassesOf proj
        unused_methods := unusedMethodsOf proj
        unused_packages := findUnusedPackages proj
        unused_assets := findUnusedAssets proj } := by
    simp [analyzeProject, hlib]
  rw [hrep]
  refine ⟨?_, ?_, ?_, ?_⟩
  · simp [unusedClassesOf, classInfosOf, hf]
  · simp [unusedMethodsOf, methodInfosOf, hf]
  · cases hps : proj.pubspec with
    | none => rw [findUnusedPackages_eq_none proj hps]
    | some ps =>
      rw [findUnusedPackages_eq_some proj ps hps]
      have hrhs : (match some ps with
          | none => ([] : List PkgFinding)
          | some ps =>
            sortPkgs ((declNames ps.top).map
              (fun n => ⟨n, (List.lookup n (pkgLineMap ps.text)).getD 1⟩))) =
          sortPkgs ((declNames ps.top).map
            (fun n => ⟨n, (List.lookup n (pkgLineMap ps.text)).getD 1⟩)) := rfl
      rw [hrhs]
      by_cases hemp : (declNames ps.top).isEmpty = true
      · rw [if_pos hemp, List.isEmpty_iff.mp hemp]
        rfl
      · rw [if_neg hemp, hf]
        have hkeep : ∀ n ∈ declNames ps.top,
            (!((importedPackagesOf ([] : List DartFile)).contains n)) =
              (fun _ => true) n :=
          fun n _ => rfl
        rw [List.filter_congr hkeep, List.filter_true]
  · have heq : findUnusedAssets proj =
        if (declaredAssetsOf proj).isEmpty then []
        else (declaredAssetsOf proj).filter
          (fun a => !(isReferenced (allLiteralsOf proj) a)) := rfl
    rw [heq]
    by_cases hemp : (declaredAssetsOf proj).isEmpty = true
    · rw [if_pos hemp, List.isEmpty_iff.mp hemp]
    · rw [if_neg hemp]
      have hlits : allLiteralsOf proj = [] := by
        unfold allLiteralsOf
        rw [hf]
        rfl
      rw [hlits]
      have hkeep : ∀ a ∈ declaredAssetsOf proj,
          (!(isReferenced [] a)) = (fun _ => true) a :=
        fun a _ => rfl
      rw [List.filter_congr hkeep, List.filter_true]

/-- C5 witness: the amended statement evaluated on the concrete empty
source set. -/
theorem C5_witness :
    (analyzeProject exProj5).unused_classes = [] ∧
    (analyzeProject exProj5).unused_methods = [] ∧
    (analyzeProject exProj5).unused_assets = declaredAssetsOf exProj5 := by
  have h := C5_amended_empty_sources exProj5 rfl rfl
  exact ⟨h.1, h.2.1, h.2.2.2⟩

end FindUnused
